import Mathlib

/-!
Shallow embedding of the volumetric renderer in nerf/renderer.py of the
clipnerf torch-ngp fork: the inverse-CDF importance resampler
(sample_pdf), the per-ray emission-absorption compositor
(NeRFRenderer.run), the staged batch renderer (NeRFRenderer.render), and
the occupancy-grid maintenance entrypoints (mark_untrained_grid,
update_extra_state, reset_extra_state).

Tensor arithmetic is embedded as exact arithmetic over a linear ordered
field (rationals, or reals where the exponential is needed); per-row
tensor operations become list operations, one list entry per sample.
The learned field (density / color / clip heads), the random number
generator, and the external raymarching kernels (near_far_from_aabb,
morton3D, packbits) are modelled as explicit function parameters, since
they are external collaborators of the code under verification.
-/

namespace TorchNGP

/-! ### Importance resampler: sample_pdf (renderer.py lines 17-53)

The quantiles u are an explicit argument: the deterministic mode builds
them with torch.linspace (lines 29-33), the stochastic mode draws them
from the external RNG, so the function of (bins, weights, u) is the
deterministic core of sample_pdf. -/

/-- Inclusive cumulative sum, torch.cumsum along the sample axis. -/
def cumsum : List ℚ → List ℚ
  | [] => []
  | x :: xs => x :: (cumsum xs).map (fun y => x + y)

/-- torch.searchsorted(cdf, u, right=True) on a sorted 1-D cdf: the
insertion index after all entries equal to u, i.e. the number of entries
that are at most u. -/
def searchsortedRight (cdf : List ℚ) (u : ℚ) : ℕ :=
  cdf.countP (fun c => decide (c ≤ u))

/-- Lines 24-25: weights + 1e-5, then normalized into a pdf. -/
def pdfOf (weights : List ℚ) : List ℚ :=
  let w := weights.map (fun x => x + 1 / 100000)
  w.map (fun x => x / w.sum)

/-- Lines 26-27: cdf = cat([zeros, cumsum(pdf)]). -/
def cdfOf (weights : List ℚ) : List ℚ :=
  0 :: cumsum (pdfOf weights)

/-- Line 40: below = max(0, inds - 1); ℕ subtraction already clamps at 0. -/
def belowOf (weights : List ℚ) (u : ℚ) : ℕ :=
  searchsortedRight (cdfOf weights) u - 1

/-- Line 41: above = min(T - 1, inds). -/
def aboveOf (weights : List ℚ) (u : ℚ) : ℕ :=
  min ((cdfOf weights).length - 1) (searchsortedRight (cdfOf weights) u)

/-- Line 48: the cdf span of the located interval,
cdf_g[..., 1] - cdf_g[..., 0]. -/
def spanOf (weights : List ℚ) (u : ℚ) : ℚ :=
  (cdfOf weights).getD (aboveOf weights u) 0 -
    (cdfOf weights).getD (belowOf weights u) 0

/-- Lines 37-53: one returned sample of sample_pdf at quantile u.
A denominator below 1e-5 is replaced by 1 (line 49), then
t = (u - cdf_g[0]) / denom and the sample interpolates the bin. -/
def samplePdfAt (bins weights : List ℚ) (u : ℚ) : ℚ :=
  let cdf := cdfOf weights
  let below := belowOf weights u
  let above := aboveOf weights u
  let denom0 := spanOf weights u
  let denom := if denom0 < 1 / 100000 then 1 else denom0
  let t := (u - cdf.getD below 0) / denom
  bins.getD below 0 + t * (bins.getD above 0 - bins.getD below 0)

/-- sample_pdf on a batch of quantiles. -/
def samplePdf (bins weights : List ℚ) (us : List ℚ) : List ℚ :=
  us.map (samplePdfAt bins weights)

/-- Lines 30-32: torch.linspace(0.5/n, 1 - 0.5/n, n), the deterministic
quantiles. linspace(a, b, n) has entries a + i * (b - a) / (n - 1), and a
single step yields [a]; division by zero in ℚ is 0, matching that. -/
def uDet (n : ℕ) : List ℚ :=
  (List.range n).map (fun (i : ℕ) =>
    1 / (2 * (n : ℚ)) + (i : ℚ) * (1 - 1 / (n : ℚ)) / ((n : ℚ) - 1))

/-- sample_pdf with det=True. -/
def samplePdfDet (bins weights : List ℚ) (n : ℕ) : List ℚ :=
  samplePdf bins weights (uDet n)

/-! ### Compositor arithmetic (renderer.py lines 218-252), generic over a
linear ordered field so that the same definitions serve exact rational
witnesses and the real-valued theorems that mention Real.exp. -/

/-- Inclusive cumulative product, torch.cumprod along the sample axis. -/
def cumprod {α : Type} [LinearOrderedField α] : List α → List α
  | [] => []
  | x :: xs => x :: (cumprod xs).map (fun y => x * y)

/-- Lines 248-252: alphas_shifted = cat([ones, 1 - alphas + 1e-15]) and
weights = alphas * cumprod(alphas_shifted)[..., :-1]. -/
def weightsOfAlphas {α : Type} [LinearOrderedField α] (alphas : List α) : List α :=
  List.zipWith (fun a p => a * p) alphas
    (cumprod (1 :: alphas.map (fun a => 1 - a + 1 / 10 ^ 15))).dropLast

/-- Lines 218-221: z_vals = linspace(0, 1, T) mapped affinely into
[near, far]; entry i is near + (far - near) * (i / (T - 1)), and a single
step yields [near] (division by zero in the field is 0, matching
torch.linspace(0, 1, 1) = [0]). -/
def zVals {α : Type} [LinearOrderedField α] (near far : α) (T : ℕ) : List α :=
  (List.range T).map (fun (i : ℕ) => near + (far - near) * ((i : α) / ((T : α) - 1)))

/-- Lines 243-245: deltas = z[1:] - z[:-1] with sample_dist appended as
the last delta. -/
def deltasOf {α : Type} [LinearOrderedField α] (z : List α) (sampleDist : α) : List α :=
  List.zipWith (fun a b => b - a) z z.tail ++ [sampleDist]

/-- Lines 246-247: alphas = 1 - exp(-deltas * density_scale * sigmas).
The exponential of the float code is an explicit parameter fexp
(instantiated with Real.exp in real-valued statements). -/
def alphasOf {α : Type} [LinearOrderedField α] (fexp : α → α) (scale : α)
    (deltas sigmas : List α) : List α :=
  List.zipWith (fun d s => 1 - fexp (-(d * scale * s))) deltas sigmas

/-- The pre-mask per-ray weights the compositor computes for a ray with
the given near/far interval, step count T and sampled densities:
lines 218-252 composed, with sample_dist = (far - near) / T (line 224). -/
def preWeightsOfRay {α : Type} [LinearOrderedField α] (fexp : α → α)
    (scale near far : α) (T : ℕ) (sigmas : List α) : List α :=
  weightsOfAlphas
    (alphasOf fexp scale (deltasOf (zVals near far T) ((far - near) / (T : α))) sigmas)

/-- The transmittance recurrence as the spec states it (spec 4.3):
Tr_0 = 1 and Tr_i = Tr_{i-1} * (1 - alpha_{i-1} + 1e-15). Used as the
comparison definition for the refinement claim about the cumprod code. -/
def TrSpec {α : Type} [LinearOrderedField α] (alphas : List α) : ℕ → α
  | 0 => 1
  | i + 1 => TrSpec alphas i * (1 - alphas.getD i 0 + 1 / 10 ^ 15)

/-- Helper recurrence carrying the running transmittance, used to relate
the cumprod formulation to the spec recurrence. -/
def trWeights {α : Type} [LinearOrderedField α] (tr : α) : List α → List α
  | [] => []
  | a :: rest => a * tr :: trWeights (tr * (1 - a + 1 / 10 ^ 15)) rest

/-- Line 256: mask = weights > 1e-4 (computed on the pre-mask weights). -/
def maskOf {α : Type} [LinearOrderedField α] (weights : List α) : List Bool :=
  weights.map (fun w => decide (1 / 10 ^ 4 < w))

/-- Line 270: weights[not mask] = 0; the weights every downstream
aggregate uses. -/
def postMaskWeights {α : Type} [LinearOrderedField α] (weights : List α) : List α :=
  List.zipWith (fun (m : Bool) w => if m then w else 0) (maskOf weights) weights

/-! ### Per-ray run pipeline (NeRFRenderer.run, lines 186-334) -/

/-- A 3-vector of field elements. -/
abbrev Vec3 (α : Type) := α × α × α

def add3 {α : Type} [LinearOrderedField α] (v w : Vec3 α) : Vec3 α :=
  (v.1 + w.1, v.2.1 + w.2.1, v.2.2 + w.2.2)

def smul3 {α : Type} [LinearOrderedField α] (c : α) (v : Vec3 α) : Vec3 α :=
  (c * v.1, c * v.2.1, c * v.2.2)

def sum3 {α : Type} [LinearOrderedField α] (l : List (Vec3 α)) : Vec3 α :=
  l.foldr add3 (0, 0, 0)

/-- Line 232: xyzs = min(max(xyzs, aabb[:3]), aabb[3:]), the manual clip. -/
def clip3 {α : Type} [LinearOrderedField α] (lo hi v : Vec3 α) : Vec3 α :=
  (min (max v.1 lo.1) hi.1, min (max v.2.1 lo.2.1) hi.2.1,
    min (max v.2.2 lo.2.2) hi.2.2)

/-- Three-list zipWith, for the per-sample color query. -/
def zipWith3 {β γ δ ε : Type} (f : β → γ → δ → ε) :
    List β → List γ → List δ → List ε
  | a :: as, b :: bs, c :: cs => f a b c :: zipWith3 f as bs cs
  | _, _, _ => []

/-- One camera ray: origin, direction, direction norm (from get_rays) and
the near/far interval supplied by the external near_far_from_aabb kernel
(lines 213-216). -/
structure Ray (α : Type) where
  o : Vec3 α
  d : Vec3 α
  dirNorm : α
  near : α
  far : α
deriving DecidableEq

/-- The dictionary run returns (lines 323-334). -/
structure RunOutput (α : Type) where
  depth : α
  depthVariance : α
  image : Vec3 α
  coordinatesMap : Vec3 α
  rgb : List (Vec3 α)
  clipFeatures : α
deriving DecidableEq

/-- The fail-fast configuration errors of the pipeline: the
assert(upsample_steps == 0) at line 198, assert(bg_color is None) at
line 199, the assert(False) of the background-model branch at line 291,
and the assert(False) guarding the cuda-ray path at line 711. -/
inductive RunError
  | upsampleNonzero
  | bgColorGiven
  | bgUnimplemented
  | cudaRayPath
deriving DecidableEq

/-- The per-ray body of NeRFRenderer.run (lines 201-334) with the
configuration asserts already checked: stratified depths, clipped
positions, density query, compositing weights, mask, masked color query,
post-mask aggregation, and white background (bg_color = 1, line 297).
densityFn returns (sigma, geo_feat); colorFn takes (xyz, dir, mask,
geo_feat, sigma); clipFn takes (geo_feat, sigma). perturb=False path
(the claims under verification all fix perturb=False). -/
def runRayCore {α : Type} [LinearOrderedField α] (fexp : α → α)
    (densityFn : Vec3 α → α × α)
    (colorFn : Vec3 α → Vec3 α → Bool → α → α → Vec3 α)
    (clipFn : α → α → α)
    (aabbLo aabbHi : Vec3 α) (scale : α) (T : ℕ) (r : Ray α) : RunOutput α :=
  let z := zVals r.near r.far T
  let sampleDist := (r.far - r.near) / (T : α)
  let xyzs := z.map (fun zi => clip3 aabbLo aabbHi (add3 r.o (smul3 zi r.d)))
  let dens := xyzs.map densityFn
  let sigmas := dens.map Prod.fst
  let geos := dens.map Prod.snd
  let weights := weightsOfAlphas (alphasOf fexp scale (deltasOf z sampleDist) sigmas)
  let mask := maskOf weights
  let rgbs := zipWith3 (fun xyz (m : Bool) (gs : α × α) => colorFn xyz r.d m gs.2 gs.1)
    xyzs mask (sigmas.zip geos)
  let postW := postMaskWeights weights
  let weightsSum := postW.sum
  let depth := (List.zipWith (fun w zi => w * zi) postW z).sum / r.dirNorm
  let depthVariance :=
    (List.zipWith (fun w zi => w * (depth - zi / r.dirNorm) ^ 2) postW z).sum
  let coordinatesMap := sum3 (List.zipWith smul3 postW xyzs)
  let image0 := sum3 (List.zipWith smul3 postW rgbs)
  let image := add3 image0 (smul3 (1 - weightsSum) (1, 1, 1))
  let clipF := (List.zipWith (fun w c => w * c) postW (List.zipWith clipFn geos sigmas)).sum
  { depth := depth, depthVariance := depthVariance, image := image,
    coordinatesMap := coordinatesMap, rgb := rgbs, clipFeatures := clipF }

/-- NeRFRenderer.run on a batch of rays: the configuration asserts
(lines 198-199 and the bg_radius > 0 branch of lines 290-291) produce the
corresponding fail-fast errors, otherwise every ray is composited
independently. -/
def run {α : Type} [LinearOrderedField α] (fexp : α → α)
    (densityFn : Vec3 α → α × α)
    (colorFn : Vec3 α → Vec3 α → Bool → α → α → Vec3 α)
    (clipFn : α → α → α)
    (aabbLo aabbHi : Vec3 α) (scale : α)
    (upsampleSteps : ℕ) (bgColor : Option α) (bgRadius : α) (T : ℕ)
    (rays : List (Ray α)) : Except RunError (List (RunOutput α)) :=
  if upsampleSteps ≠ 0 then .error .upsampleNonzero
  else if bgColor.isSome then .error .bgColorGiven
  else if 0 < bgRadius then .error .bgUnimplemented
  else .ok (rays.map (runRayCore fexp densityFn colorFn clipFn aabbLo aabbHi scale T))

/-! ### Staged batch renderer (NeRFRenderer.render, lines 699-772) -/

/-- Fuel-driven chunking: take c rays, recurse on the rest. The fuel is
the list length, so the recursion is structural and kernel-reducible. -/
def chunksOfAux {β : Type} (c : ℕ) : ℕ → List β → List (List β)
  | 0, _ => []
  | _, [] => []
  | fuel + 1, x :: xs => (x :: xs).take c :: chunksOfAux c fuel ((x :: xs).drop c)

/-- The chunks the staged loop (lines 733-756) processes: slices
[head, head + max_ray_batch) of the ray batch. A chunk size of 0 makes
the python loop diverge; the model returns no chunks in that case. -/
def chunksOf {β : Type} (c : ℕ) (l : List β) : List (List β) :=
  if c = 0 then [] else chunksOfAux c l.length l

/-- The dictionary render returns: the staged path (lines 758-767)
assembles depth, depth_variance, image, clip_features and
coordinates_map buffers and omits the per-sample rgb of run, while the
unstaged path (line 770) returns run's dictionary, rgb included; the
optional rgb field records that difference in key sets. -/
structure RenderOutputs (α : Type) where
  depth : List α
  depthVariance : List α
  image : List (Vec3 α)
  clipFeatures : List α
  coordinatesMap : List (Vec3 α)
  rgb : Option (List (List (Vec3 α)))
deriving DecidableEq

/-- Assemble the render dictionary from per-ray run outputs, with or
without the per-sample rgb key. -/
def collectOutputs {α : Type} [LinearOrderedField α] (outs : List (RunOutput α))
    (withRgb : Bool) : RenderOutputs α :=
  { depth := outs.map (fun o => o.depth)
    depthVariance := outs.map (fun o => o.depthVariance)
    image := outs.map (fun o => o.image)
    clipFeatures := outs.map (fun o => o.clipFeatures)
    coordinatesMap := outs.map (fun o => o.coordinatesMap)
    rgb := if withRgb then some (outs.map (fun o => o.rgb)) else none }

/-- NeRFRenderer.render (lines 699-772): the cuda-ray path asserts False
(line 711); staged=True splits the batch into chunks of max_ray_batch
whole rays, runs each chunk and writes its outputs into the
corresponding slice of the preallocated buffers; staged=False runs the
whole batch in one call. -/
def render {α : Type} [LinearOrderedField α] (cudaRay : Bool) (fexp : α → α)
    (densityFn : Vec3 α → α × α)
    (colorFn : Vec3 α → Vec3 α → Bool → α → α → Vec3 α)
    (clipFn : α → α → α)
    (aabbLo aabbHi : Vec3 α) (scale : α)
    (upsampleSteps : ℕ) (bgColor : Option α) (bgRadius : α) (T : ℕ)
    (staged : Bool) (maxRayBatch : ℕ)
    (rays : List (Ray α)) : Except RunError (RenderOutputs α) :=
  if cudaRay then .error .cudaRayPath
  else if staged then
    (chunksOf maxRayBatch rays).mapM
      (run fexp densityFn colorFn clipFn aabbLo aabbHi scale
        upsampleSteps bgColor bgRadius T) |>.map
      (fun chunkOuts => collectOutputs chunkOuts.flatten false)
  else
    (run fexp densityFn colorFn clipFn aabbLo aabbHi scale
      upsampleSteps bgColor bgRadius T rays).map
      (fun outs => collectOutputs outs true)

/-- Forget the per-sample rgb key of a render dictionary. -/
def eraseRgb {α : Type} (r : RenderOutputs α) : RenderOutputs α :=
  { r with rgb := none }

/-! ### Occupancy grid maintenance (lines 140-150, 493-697)

The density grid is a list of cascades, each a list of cell values
(linear cell index = the morton code the external morton3D kernel
assigns; the kernel is a bijection between coordinates and indices, so
cells are addressed by their linear index directly). The learned field,
the jitter and the RNG draws of update_extra_state are bundled into an
oracle: sampleVal cas i is the density-scale-scaled sigma the field
query returns for the sampled point of cell i of cascade cas, randCell
enumerates the uniformly drawn cell indices, occPick the draws into the
occupied-cell index list. -/

def gridSize : ℕ := 128

structure UpdateOracle where
  sampleVal : ℕ → ℕ → ℚ
  randCell : ℕ → ℕ → ℕ
  occPick : ℕ → ℕ → ℕ

/-- The renderer state touched by the maintenance entrypoints
(constructor lines 110-128). -/
structure GridState where
  cudaRay : Bool
  densityGrid : List (List ℚ)
  densityBitfield : List (List Bool)
  meanDensity : ℚ
  iterDensity : ℕ
  stepCounter : List ℕ
  meanCount : ℕ
  localStep : ℕ
  densityThresh : ℚ

/-- Lines 677-679: the per-cell EMA combine. A cell changes only when
both its old value and the fresh sample are non-negative, to
max(old * decay, sample); otherwise it keeps its old value. -/
def emaCell (decay old tmp : ℚ) : ℚ :=
  if 0 ≤ old ∧ 0 ≤ tmp then max (old * decay) tmp else old

/-- Full-sweep tmp grid slice (lines 589-631): every cell of the cascade
receives its freshly sampled value. -/
def fullSweepSlice (o : UpdateOracle) (cas len : ℕ) : List ℚ :=
  (List.range len).map (fun i => o.sampleVal cas i)

/-- Line 644: the linear indices of the currently occupied cells,
nonzero(density_grid[cas] > 0). -/
def occupiedIndices (g : List ℚ) : List ℕ :=
  (List.range g.length).filter (fun i => decide (0 < g.getD i 0))

/-- Lines 636-655 (steady state): grid_size^3 / 4 uniformly random cell
indices concatenated with grid_size^3 / 4 indices drawn with replacement
from the occupied cells. randCell draws are reduced mod grid_size^3
(randint draws coordinates inside the grid), occPick draws index the
occupied list with replacement. -/
def sparseIndices (o : UpdateOracle) (cas : ℕ) (g : List ℚ) : List ℕ :=
  let N := gridSize ^ 3 / 4
  let occ := occupiedIndices g
  (List.range N).map (fun j => o.randCell cas j % gridSize ^ 3) ++
    (List.range N).map (fun j => occ.getD (o.occPick cas j % occ.length) 0)

/-- Steady-state tmp grid slice: tmp is initialized to -1 (line 586) and
only the sampled indices receive their queried values (line 669). -/
def sparseSweepSlice (o : UpdateOracle) (cas : ℕ) (g : List ℚ) : List ℚ :=
  (List.range g.length).map
    (fun i => if (sparseIndices o cas g).contains i then o.sampleVal cas i else -1)

/-- The tmp grid of one update_extra_state call: a full sweep of every
cascade while iter_density < 16 (line 589), the sparse sweep afterwards
(line 635). -/
def tmpGridOf (s : GridState) (o : UpdateOracle) : List (List ℚ) :=
  (List.range s.densityGrid.length).map (fun cas =>
    let g := s.densityGrid.getD cas []
    if s.iterDensity < 16 then fullSweepSlice o cas g.length
    else sparseSweepSlice o cas g)

def listMean (l : List ℚ) : ℚ := l.sum / (l.length : ℚ)

/-- The branch condition of line 589: whether the next/current call runs
the full sweep. -/
def sweepIsFull (s : GridState) : Bool :=
  decide (s.iterDensity < 16)

/-- NeRFRenderer.update_extra_state (lines 577-697): early return when
cuda_ray is off (lines 581-582); otherwise sample the tmp grid, combine
it cellwise with the EMA rule (lines 676-679), recompute mean_density
over the grid clamped at 0 (lines 680-681), bump iter_density, re-derive
the bitfield with threshold min(mean_density, density_thresh)
(lines 684-688, cell bit = density > threshold), and fold the step
counter into mean_count before resetting local_step (lines 690-695). -/
def updateExtraState (s : GridState) (decay : ℚ) (o : UpdateOracle) : GridState :=
  if !s.cudaRay then s
  else
    let tmp := tmpGridOf s o
    let newGrid := List.zipWith (fun gc tc => List.zipWith (emaCell decay) gc tc)
      s.densityGrid tmp
    let newMean := listMean (newGrid.flatten.map (fun v => max v 0))
    let thresh := min newMean s.densityThresh
    let totalStep := min 16 s.localStep
    { s with
      densityGrid := newGrid
      meanDensity := newMean
      iterDensity := s.iterDensity + 1
      densityBitfield := newGrid.map (fun gc => gc.map (fun v => decide (thresh < v)))
      meanCount := if 0 < totalStep then (s.stepCounter.take totalStep).sum / totalStep
        else s.meanCount
      localStep := 0 }

/-- NeRFRenderer.mark_untrained_grid (lines 493-575): early return when
cuda_ray is off (lines 498-499); otherwise cells seen by zero cameras
are set to the sentinel -1 (line 573). counts is the per-cascade,
per-cell camera-coverage count the 5-level loop of lines 523-570
computes from the poses and intrinsics (external camera geometry,
abstracted as an input). -/
def markUntrainedGrid (s : GridState) (counts : List (List ℕ)) : GridState :=
  if !s.cudaRay then s
  else
    let newGrid := List.zipWith
      (fun cc gc => List.zipWith (fun (c : ℕ) g => if c = 0 then -1 else g) cc gc)
      counts s.densityGrid
    { s with densityGrid := newGrid }

/-- NeRFRenderer.reset_extra_state (lines 140-150): early return when
cuda_ray is off; otherwise zero the grid, the running statistics and the
step counter. -/
def resetExtraState (s : GridState) : GridState :=
  if !s.cudaRay then s
  else
    { s with
      densityGrid := s.densityGrid.map (fun gc => gc.map (fun _ => 0))
      meanDensity := 0
      iterDensity := 0
      stepCounter := s.stepCounter.map (fun _ => 0)
      meanCount := 0
      localStep := 0 }

/-- k successive update_extra_state calls with per-call oracles. -/
def iterUpdate (s : GridState) (decay : ℚ) (o : ℕ → UpdateOracle) : ℕ → GridState
  | 0 => s
  | k + 1 => updateExtraState (iterUpdate s decay o k) decay (o k)

/-! ### General list lemmas -/

theorem getD_map_range {β : Type} (f : ℕ → β) (n i : ℕ) (d : β) (h : i < n) :
    ((List.range n).map f).getD i d = f i := by
  rw [List.getD_eq_getElem?_getD, List.getElem?_map, List.getElem?_range h]
  rfl

theorem zipWith_getD {β γ δ : Type} (f : β → γ → δ) :
    ∀ (l1 : List β) (l2 : List γ) (i : ℕ) (d1 : β) (d2 : γ) (d3 : δ),
      i < l1.length → i < l2.length →
      (List.zipWith f l1 l2).getD i d3 = f (l1.getD i d1) (l2.getD i d2)
  | [], _, i, _, _, _, h1, _ => absurd h1 (by simp)
  | _ :: _, [], i, _, _, _, _, h2 => absurd h2 (by simp)
  | a :: l1, b :: l2, 0, d1, d2, d3, _, _ => by simp
  | a :: l1, b :: l2, i + 1, d1, d2, d3, h1, h2 => by
    simp only [List.zipWith_cons_cons, List.getD_cons_succ]
    exact zipWith_getD f l1 l2 i d1 d2 d3 (by simpa using h1) (by simpa using h2)

theorem countP_range_lt (m : ℕ) : ∀ n : ℕ,
    (List.range n).countP (fun k => decide (k < m)) = min m n := by
  intro n
  induction n with
  | zero => simp
  | succ n ih =>
    rw [List.range_succ, List.countP_append, ih]
    by_cases h : n < m <;> simp [h, List.countP_cons] <;> omega

/-! ### Lemmas about the resampler -/

theorem cumsum_replicate : ∀ (n : ℕ) (p : ℚ),
    cumsum (List.replicate n p) = (List.range n).map (fun (k : ℕ) => ((k : ℚ) + 1) * p) := by
  intro n
  induction n with
  | zero => intro p; simp [cumsum]
  | succ n ih =>
    intro p
    rw [List.replicate_succ, cumsum, ih, List.range_succ_eq_map, List.map_cons,
      List.map_map, List.map_map]
    refine congrArg₂ _ (by norm_num) (List.map_congr_left fun k _ => ?_)
    simp only [Function.comp_apply, Nat.succ_eq_add_one]
    push_cast
    ring

theorem uDet_one : uDet 1 = [1/2] := by
  norm_num [uDet, show List.range 1 = [0] from rfl]

/-! ### Lemmas about the compositor weights -/

theorem trWeights_length {α : Type} [LinearOrderedField α] :
    ∀ (l : List α) (tr : α), (trWeights tr l).length = l.length := by
  intro l
  induction l with
  | nil => intro tr; rfl
  | cons a rest ih => intro tr; simp [trWeights, ih]

theorem zipWith_cumprod_eq_trWeights {α : Type} [LinearOrderedField α] :
    ∀ (alphas : List α) (c : α),
      List.zipWith (fun a p => a * p) alphas
        (cumprod (c :: alphas.map (fun a => 1 - a + 1 / 10 ^ 15))).dropLast
      = trWeights c alphas := by
  intro alphas
  induction alphas with
  | nil => intro c; simp [cumprod, trWeights]
  | cons a rest ih =>
    intro c
    have hmap : ((cumprod (rest.map (fun x => 1 - x + 1 / 10 ^ 15))).map
          (fun y => (1 - a + 1 / 10 ^ 15) * y)).map (fun y => c * y)
        = (cumprod (rest.map (fun x => 1 - x + 1 / 10 ^ 15))).map
          (fun y => c * (1 - a + 1 / 10 ^ 15) * y) := by
      rw [List.map_map]
      exact List.map_congr_left fun y _ => by simp only [Function.comp_apply]; ring
    calc List.zipWith (fun a p => a * p) (a :: rest)
          (cumprod (c :: (a :: rest).map (fun x => 1 - x + 1 / 10 ^ 15))).dropLast
        = a * c :: List.zipWith (fun a p => a * p) rest
            (cumprod (c * (1 - a + 1 / 10 ^ 15) ::
              rest.map (fun x => 1 - x + 1 / 10 ^ 15))).dropLast := by
          simp only [List.map_cons, cumprod, List.dropLast_cons₂, List.zipWith_cons_cons,
            hmap]
      _ = trWeights c (a :: rest) := by rw [ih]; rfl

theorem weightsOfAlphas_eq_trWeights {α : Type} [LinearOrderedField α] (alphas : List α) :
    weightsOfAlphas alphas = trWeights 1 alphas := by
  unfold weightsOfAlphas
  exact zipWith_cumprod_eq_trWeights alphas 1

theorem weightsOfAlphas_length {α : Type} [LinearOrderedField α] (alphas : List α) :
    (weightsOfAlphas alphas).length = alphas.length := by
  rw [weightsOfAlphas_eq_trWeights, trWeights_length]

theorem TrSpec_cons {α : Type} [LinearOrderedField α] (a : α) (rest : List α) :
    ∀ i : ℕ, TrSpec (a :: rest) (i + 1) = (1 - a + 1 / 10 ^ 15) * TrSpec rest i := by
  intro i
  induction i with
  | zero =>
    show TrSpec (a :: rest) 0 * (1 - (a :: rest).getD 0 0 + 1 / 10 ^ 15) = _
    show (1 : α) * (1 - (a :: rest).getD 0 0 + 1 / 10 ^ 15) = _
    rw [List.getD_cons_zero]
    show _ = (1 - a + 1 / 10 ^ 15) * (1 : α)
    ring
  | succ i ih =>
    calc TrSpec (a :: rest) (i + 1 + 1)
        = TrSpec (a :: rest) (i + 1) * (1 - (a :: rest).getD (i + 1) 0 + 1 / 10 ^ 15) := rfl
      _ = (1 - a + 1 / 10 ^ 15) * TrSpec rest i * (1 - rest.getD i 0 + 1 / 10 ^ 15) := by
          rw [ih, List.getD_cons_succ]
      _ = (1 - a + 1 / 10 ^ 15) * TrSpec rest (i + 1) := by
          rw [show TrSpec rest (i + 1)
            = TrSpec rest i * (1 - rest.getD i 0 + 1 / 10 ^ 15) from rfl]
          ring

theorem trWeights_getD {α : Type} [LinearOrderedField α] :
    ∀ (l : List α) (tr : α) (i : ℕ), i < l.length →
      (trWeights tr l).getD i 0 = l.getD i 0 * (tr * TrSpec l i)
  | [], tr, i, h => absurd h (by simp)
  | a :: rest, tr, 0, _ => by
    show a * tr = a * (tr * TrSpec (a :: rest) 0)
    show a * tr = a * (tr * 1)
    ring
  | a :: rest, tr, i + 1, h => by
    rw [trWeights, List.getD_cons_succ, List.getD_cons_succ, TrSpec_cons,
      trWeights_getD rest _ i (by simpa using h)]
    ring

theorem trWeights_sum_le {α : Type} [LinearOrderedField α] :
    ∀ (l : List α) (tr : α), 0 ≤ tr → (∀ a ∈ l, 0 ≤ a ∧ a ≤ 1) →
      (trWeights tr l).sum ≤ tr * (1 + 1 / 10 ^ 15) ^ l.length := by
  intro l
  induction l with
  | nil => intro tr htr _; simpa [trWeights] using htr
  | cons a rest ih =>
    intro tr htr hmem
    obtain ⟨ha0, ha1⟩ := hmem a (List.mem_cons_self a rest)
    have hb : (0:α) ≤ 1 - a + 1 / 10 ^ 15 := by linarith
    have htr2 : 0 ≤ tr * (1 - a + 1 / 10 ^ 15) := mul_nonneg htr hb
    have hM : (1:α) ≤ (1 + 1 / 10 ^ 15) ^ rest.length :=
      one_le_pow₀ (by norm_num)
    have hrec := ih (tr * (1 - a + 1 / 10 ^ 15)) htr2
      (fun x hx => hmem x (List.mem_cons_of_mem a hx))
    have hkey : 0 ≤ tr * a * ((1 + 1 / 10 ^ 15) ^ rest.length - 1) :=
      mul_nonneg (mul_nonneg htr ha0) (by linarith)
    calc (trWeights tr (a :: rest)).sum
        = a * tr + (trWeights (tr * (1 - a + 1 / 10 ^ 15)) rest).sum := by
          simp [trWeights]
      _ ≤ a * tr + tr * (1 - a + 1 / 10 ^ 15) * (1 + 1 / 10 ^ 15) ^ rest.length := by
          linarith
      _ ≤ tr * (1 + 1 / 10 ^ 15) ^ (a :: rest).length := by
          simp only [List.length_cons, pow_succ]
          nlinarith

/-! ### Lemmas about the occupancy grid update -/

theorem tmpGridOf_length (s : GridState) (o : UpdateOracle) :
    (tmpGridOf s o).length = s.densityGrid.length := by
  simp [tmpGridOf]

theorem tmpGridOf_slice_length (s : GridState) (o : UpdateOracle) (cas : ℕ)
    (h : cas < s.densityGrid.length) :
    ((tmpGridOf s o).getD cas []).length = (s.densityGrid.getD cas []).length := by
  rw [tmpGridOf, getD_map_range _ _ _ _ h]
  by_cases hfull : s.iterDensity < 16 <;> simp [hfull, fullSweepSlice, sparseSweepSlice]

theorem updateExtraState_cell_neg_one (s : GridState) (decay : ℚ) (o : UpdateOracle)
    (cas i : ℕ) (h : (s.densityGrid.getD cas []).getD i 0 = -1) :
    ((updateExtraState s decay o).densityGrid.getD cas []).getD i 0 = -1 := by
  by_cases hc : s.cudaRay
  · have hcas : cas < s.densityGrid.length := by
      by_contra hno
      push_neg at hno
      rw [List.getD_eq_default _ _ hno] at h
      simp at h
    have hi : i < (s.densityGrid.getD cas []).length := by
      by_contra hno
      push_neg at hno
      rw [List.getD_eq_default _ _ hno] at h
      norm_num at h
    rw [updateExtraState]
    simp only [hc, Bool.not_true, Bool.false_eq_true, if_false, if_neg]
    rw [zipWith_getD _ _ _ _ [] [] _ hcas (by rw [tmpGridOf_length]; exact hcas),
      zipWith_getD _ _ _ _ 0 0 _ hi (by rw [tmpGridOf_slice_length s o cas hcas]; exact hi),
      h]
    simp [emaCell]
  · rw [updateExtraState]
    simp only [hc]
    simpa using h

theorem iterUpdate_cell_neg_one (s : GridState) (decay : ℚ) (o : ℕ → UpdateOracle)
    (cas i : ℕ) (h : (s.densityGrid.getD cas []).getD i 0 = -1) :
    ∀ k : ℕ, ((iterUpdate s decay o k).densityGrid.getD cas []).getD i 0 = -1 := by
  intro k
  induction k with
  | zero => exact h
  | succ k ih => exact updateExtraState_cell_neg_one _ decay (o k) cas i ih

/-! ### Lemmas for the weight conservation bound -/

theorem zVals_chain (near far : ℝ) (T : ℕ) (h : near ≤ far) :
    List.Chain' (· ≤ ·) (zVals near far T) := by
  rw [zVals, List.chain'_map]
  cases T with
  | zero => simp
  | succ n =>
    rw [List.chain'_range_succ]
    intro m hm
    have hn1 : (1:ℝ) ≤ (n : ℝ) := by exact_mod_cast Nat.one_le_iff_ne_zero.mpr (by omega)
    have hc : (0:ℝ) < ((n + 1 : ℕ) : ℝ) - 1 := by push_cast; linarith
    refine add_le_add_left (mul_le_mul_of_nonneg_left ?_ (by linarith)) near
    refine (div_le_div_iff_of_pos_right hc).mpr ?_
    exact_mod_cast Nat.le_succ m

theorem zip_sub_nonneg : ∀ (z : List ℝ), List.Chain' (· ≤ ·) z →
    ∀ x ∈ List.zipWith (fun a b => b - a) z z.tail, 0 ≤ x
  | [], _, x, hx => by simp at hx
  | [a], _, x, hx => by simp at hx
  | a :: b :: rest, hchain, x, hx => by
    rw [List.tail_cons, List.zipWith_cons_cons] at hx
    obtain ⟨hab, htail⟩ := List.chain'_cons.mp hchain
    rcases List.mem_cons.mp hx with h | h
    · subst h; linarith
    · exact zip_sub_nonneg (b :: rest) htail x h

theorem deltasOf_ray_nonneg (near far : ℝ) (T : ℕ) (h : near ≤ far) :
    ∀ d ∈ deltasOf (zVals near far T) ((far - near) / (T : ℝ)), 0 ≤ d := by
  intro d hd
  rw [deltasOf] at hd
  rcases List.mem_append.mp hd with h1 | h1
  · exact zip_sub_nonneg (zVals near far T) (zVals_chain near far T h) d h1
  · rw [List.mem_singleton.mp h1]
    exact div_nonneg (by linarith) (Nat.cast_nonneg T)

theorem alphasOf_exp_bounds : ∀ (deltas sigmas : List ℝ) (scale : ℝ), 0 ≤ scale →
    (∀ d ∈ deltas, 0 ≤ d) → (∀ s ∈ sigmas, 0 ≤ s) →
    ∀ a ∈ alphasOf Real.exp scale deltas sigmas, 0 ≤ a ∧ a ≤ 1
  | [], _, _, _, _, _ => by intro a ha; simp [alphasOf] at ha
  | _ :: _, [], _, _, _, _ => by intro a ha; simp [alphasOf] at ha
  | d :: ds, s :: ss, scale, hscale, hd, hs => by
    intro a ha
    rw [alphasOf, List.zipWith_cons_cons] at ha
    rcases List.mem_cons.mp ha with h | h
    · subst h
      have hx : 0 ≤ d * scale * s :=
        mul_nonneg (mul_nonneg (hd d (List.mem_cons_self d ds)) hscale)
          (hs s (List.mem_cons_self s ss))
      have h1 : Real.exp (-(d * scale * s)) ≤ 1 := Real.exp_le_one_iff.mpr (by linarith)
      have h2 : 0 < Real.exp (-(d * scale * s)) := Real.exp_pos _
      constructor <;> linarith
    · exact alphasOf_exp_bounds ds ss scale hscale
        (fun x hx => hd x (List.mem_cons_of_mem d hx))
        (fun x hx => hs x (List.mem_cons_of_mem s hx)) a h

/-! ### Claim C1 -/

/-- Claim C1 (amended): for every ray (near ≤ far, any step count) and
every sequence of non-negative sample densities with non-negative
density scale, the pre-mask per-ray weights sum to at most
(1 + 1e-15)^T where T is the number of weights. (The exact bound 1 of
the claim fails: the + 1e-15 in the transmittance factors lets the sum
exceed 1 by up to about T * 1e-15, see the counterexample.) -/
theorem C1_preMask_weights_sum_le (scale near far : ℝ) (T : ℕ) (sigmas : List ℝ)
    (hnf : near ≤ far) (hscale : 0 ≤ scale) (hs : ∀ s ∈ sigmas, 0 ≤ s) :
    (preWeightsOfRay Real.exp scale near far T sigmas).sum
      ≤ (1 + 1 / 10 ^ 15) ^ (preWeightsOfRay Real.exp scale near far T sigmas).length := by
  rw [preWeightsOfRay, weightsOfAlphas_length, weightsOfAlphas_eq_trWeights]
  have hbounds := alphasOf_exp_bounds
    (deltasOf (zVals near far T) ((far - near) / (T : ℝ))) sigmas scale hscale
    (deltasOf_ray_nonneg near far T hnf) hs
  have hle := trWeights_sum_le
    (alphasOf Real.exp scale (deltasOf (zVals near far T) ((far - near) / (T : ℝ))) sigmas)
    1 zero_le_one hbounds
  rw [one_mul] at hle
  exact hle

/-- Witness for the amended C1 on a concrete ray with zero densities. -/
theorem C1_preMask_weights_sum_le_witness :
    (preWeightsOfRay Real.exp 1 0 1 2 [0, 0]).sum
      ≤ (1 + 1 / 10 ^ 15) ^ (preWeightsOfRay Real.exp 1 0 1 2 [0, 0]).length :=
  C1_preMask_weights_sum_le 1 0 1 2 [0, 0] (by norm_num) (by norm_num)
    (by intro s hs; rcases List.mem_cons.mp hs with h | h
        · rw [h]
        · rw [List.mem_singleton.mp h])

/-- Claim C1 (counterexample): on the ray with near = 0, far = 40,
T = 2 steps, density scale 1 and densities sigma = [1, 1], the pre-mask
weights sum exceeds 1 in exact arithmetic: the sum is
1 - exp(-60) + (1 - exp(-20)) * 1e-15 > 1, because the 1e-15 added to
each transmittance factor outweighs the leftover transmittance
exp(-60). So the claimed bound 1 does not hold for all inputs. -/
theorem C1_preMask_weights_sum_cex :
    ¬ ((preWeightsOfRay Real.exp 1 0 40 2 [1, 1]).sum ≤ 1) := by
  have hz : zVals (0:ℝ) 40 2 = [0, 40] := by
    rw [zVals, show List.range 2 = [0, 1] from rfl]
    norm_num
  have hdeltas : deltasOf (zVals (0:ℝ) 40 2) ((40 - 0) / ((2:ℕ) : ℝ)) = [40, 20] := by
    rw [hz]
    norm_num [deltasOf]
  have halphas : alphasOf Real.exp 1 (deltasOf (zVals (0:ℝ) 40 2) ((40 - 0) / ((2:ℕ) : ℝ)))
      [1, 1] = [1 - Real.exp (-40), 1 - Real.exp (-20)] := by
    rw [hdeltas, alphasOf]
    norm_num
  rw [preWeightsOfRay, halphas, weightsOfAlphas_eq_trWeights]
  have hE40pos : 0 < Real.exp (-40) := Real.exp_pos _
  have hE20pos : 0 < Real.exp (-20) := Real.exp_pos _
  have hE20le : Real.exp (-20) ≤ 1 / 21 := by
    rw [Real.exp_neg]
    have h21 : (21:ℝ) ≤ Real.exp 20 := by
      have := Real.add_one_le_exp (20:ℝ)
      linarith
    calc (Real.exp 20)⁻¹ ≤ (21:ℝ)⁻¹ := inv_anti₀ (by norm_num) h21
      _ = 1 / 21 := by norm_num
  have hprod : Real.exp (-20) * Real.exp (-40) = Real.exp (-60) := by
    rw [← Real.exp_add]
    norm_num
  have hE60 : Real.exp (-60) < 5 / 10 ^ 16 := by
    rw [Real.exp_neg]
    have hpow : (2 * 10 ^ 15 : ℝ) < Real.exp 60 := by
      have h1 : ((5:ℝ) / 2) ^ (60:ℕ) < Real.exp 1 ^ (60:ℕ) := by
        refine pow_lt_pow_left₀ ?_ (by norm_num) (by norm_num)
        calc (5:ℝ)/2 < 2.7182818283 := by norm_num
          _ < Real.exp 1 := Real.exp_one_gt_d9
      have h2 : Real.exp 60 = Real.exp 1 ^ (60:ℕ) := by
        rw [← Real.exp_nat_mul]
        norm_num
      have h3 : (2 * 10 ^ 15 : ℝ) < ((5:ℝ) / 2) ^ (60:ℕ) := by norm_num
      rw [h2]
      linarith
    calc (Real.exp 60)⁻¹ < ((2 * 10 ^ 15 : ℝ))⁻¹ :=
        inv_strictAnti₀ (by norm_num) hpow
      _ = 5 / 10 ^ 16 := by norm_num
  rw [not_le]
  have hmul : (1 / 10 ^ 15 : ℝ) * Real.exp (-20) ≤ (1 / 10 ^ 15) * (1 / 21) :=
    mul_le_mul_of_nonneg_left hE20le (by norm_num)
  simp only [trWeights, List.sum_cons, List.sum_nil]
  nlinarith [hprod, hE60, hmul, hE20pos, hE40pos]

/-! ### Lemmas about the deltas -/

theorem deltasOf_cons_cons {α : Type} [LinearOrderedField α] (a b : α) (rest : List α)
    (sd : α) : deltasOf (a :: b :: rest) sd = (b - a) :: deltasOf (b :: rest) sd := rfl

theorem deltasOf_getD {α : Type} [LinearOrderedField α] :
    ∀ (z : List α) (sd : α) (i : ℕ), i + 1 < z.length →
      (deltasOf z sd).getD i 0 = z.getD (i + 1) 0 - z.getD i 0
  | [], _, i, h => absurd h (by simp)
  | [a], _, i, h => absurd h (by simp)
  | a :: b :: rest, sd, 0, _ => by
    rw [deltasOf_cons_cons]
    rfl
  | a :: b :: rest, sd, i + 1, h => by
    have ih := deltasOf_getD (b :: rest) sd i (by simpa using h)
    simpa [deltasOf_cons_cons] using ih

theorem deltasOf_last {α : Type} [LinearOrderedField α] :
    ∀ (z : List α) (sd : α), z ≠ [] → (deltasOf z sd).getD (z.length - 1) 0 = sd
  | [], _, h => absurd rfl h
  | [a], sd, _ => rfl
  | a :: b :: rest, sd, _ => by
    rw [deltasOf_cons_cons]
    have hlen : (a :: b :: rest).length - 1 = ((b :: rest).length - 1) + 1 := by
      simp
    rw [hlen, List.getD_cons_succ]
    exact deltasOf_last (b :: rest) sd (by simp)

/-! ### Claim C4 -/

/-- Claim C4: for a ray with T ordered sample depths, the compositor
computes delta_i = z_{i+1} - z_i for i < T-1 with the last delta equal
to the per-ray constant sample_dist = (far - near) / T, computes
alpha_i = 1 - exp(-delta_i * density_scale * sigma_i), and the cumprod
formulation of lines 248-252 yields exactly weight_i = alpha_i * Tr_i
for the spec's transmittance recurrence Tr_0 = 1,
Tr_i = Tr_{i-1} * (1 - alpha_{i-1} + 1e-15) (the TrSpec definition). -/
theorem C4_compositor_formulas {α : Type} [LinearOrderedField α] (fexp : α → α)
    (scale : α) (z sigmas : List α) (sd : α) :
    (∀ i : ℕ, i + 1 < z.length →
        (deltasOf z sd).getD i 0 = z.getD (i + 1) 0 - z.getD i 0)
    ∧ (z ≠ [] → (deltasOf z sd).getD (z.length - 1) 0 = sd)
    ∧ (∀ (near far : α) (T : ℕ), 1 ≤ T →
        (deltasOf (zVals near far T) ((far - near) / (T : α))).getD (T - 1) 0
          = (far - near) / (T : α))
    ∧ (∀ (deltas : List α) (i : ℕ), i < deltas.length → i < sigmas.length →
        (alphasOf fexp scale deltas sigmas).getD i 0
          = 1 - fexp (-(deltas.getD i 0 * scale * sigmas.getD i 0)))
    ∧ (∀ (alphas : List α) (i : ℕ), i < alphas.length →
        (weightsOfAlphas alphas).getD i 0 = alphas.getD i 0 * TrSpec alphas i) := by
  refine ⟨fun i h => deltasOf_getD z sd i h,
    fun h => deltasOf_last z sd h, fun near far T hT => ?_, fun deltas i h1 h2 => ?_,
    fun alphas i h => ?_⟩
  · have hlen : (zVals near far T).length = T := by simp [zVals]
    have hne : zVals near far T ≠ [] := by
      intro hcon
      rw [hcon] at hlen
      simp at hlen
      omega
    have h2 := deltasOf_last (zVals near far T) ((far - near) / (T : α)) hne
    rw [hlen] at h2
    exact h2
  · rw [alphasOf, zipWith_getD _ _ _ _ 0 0 _ h1 h2]
  · rw [weightsOfAlphas_eq_trWeights, trWeights_getD alphas 1 i h, one_mul]

/-- Witness for C4 on concrete rational inputs: depth differences,
the appended last delta, the sample-spacing last delta for a concrete
ray, the alpha formula, and the weight/transmittance identity. -/
theorem C4_compositor_formulas_witness :
    (deltasOf [0, 1, 3] (9 : ℚ)).getD 1 0
        = ([0, 1, 3] : List ℚ).getD 2 0 - ([0, 1, 3] : List ℚ).getD 1 0
    ∧ (deltasOf [0, 1, 3] (9 : ℚ)).getD 2 0 = 9
    ∧ (deltasOf (zVals (0 : ℚ) 4 2) ((4 - 0) / (2 : ℚ))).getD 1 0 = (4 - 0) / (2 : ℚ)
    ∧ (alphasOf (fun x => x + 1) 2 [1, 2] [5, 7, 11]).getD 1 0
        = 1 - ((-(([1, 2] : List ℚ).getD 1 0 * 2 * ([5, 7, 11] : List ℚ).getD 1 0)) + 1)
    ∧ (weightsOfAlphas [1/2, 1/3]).getD 1 0
        = ([1/2, 1/3] : List ℚ).getD 1 0 * TrSpec [1/2, 1/3] 1 :=
  ⟨(C4_compositor_formulas (fun x => x + 1) 2 [0, 1, 3] [5, 7, 11] 9).1 1 (by norm_num),
    by
      have h := (C4_compositor_formulas (α := ℚ) (fun x => x + 1) 2 [0, 1, 3] [5, 7, 11]
        9).2.1 (by simp)
      simpa using h,
    ((C4_compositor_formulas (α := ℚ) (fun x => x + 1) 2 [0, 1, 3] [5, 7, 11] 9).2.2.1
      0 4 2 (by norm_num)).trans (by norm_num),
    (C4_compositor_formulas (fun x => x + 1) 2 [0, 1, 3] [5, 7, 11] 9).2.2.2.1
      [1, 2] 1 (by norm_num) (by norm_num),
    (C4_compositor_formulas (fun x => x + 1) 2 [0, 1, 3] [5, 7, 11] 9).2.2.2.2
      [1/2, 1/3] 1 (by norm_num)⟩

/-! ### Claim C9 -/

/-- Claim C9: in every run call, a non-zero upsample_steps request fails
fast with the assertion error of line 198 before any field query — the
result is the same error for every density/color/clip function, so the
field is never consulted — and selecting background-model blending
(bg_radius > 0) on this non-accelerated path hits the assert(False) of
line 291 rather than silently no-opping. -/
theorem C9_fail_fast {α : Type} [LinearOrderedField α] (fexp : α → α)
    (densityFn : Vec3 α → α × α)
    (colorFn : Vec3 α → Vec3 α → Bool → α → α → Vec3 α)
    (clipFn : α → α → α) (aabbLo aabbHi : Vec3 α) (scale : α)
    (upsampleSteps : ℕ) (bgColor : Option α) (bgRadius : α) (T : ℕ)
    (rays : List (Ray α)) :
    (upsampleSteps ≠ 0 →
      run fexp densityFn colorFn clipFn aabbLo aabbHi scale upsampleSteps bgColor
        bgRadius T rays = .error .upsampleNonzero)
    ∧ (upsampleSteps = 0 → bgColor = none → 0 < bgRadius →
      run fexp densityFn colorFn clipFn aabbLo aabbHi scale upsampleSteps bgColor
        bgRadius T rays = .error .bgUnimplemented) := by
  constructor
  · intro h
    rw [run, if_pos h]
  · intro h1 h2 h3
    subst h1
    subst h2
    simp [run, h3]

/-- Witness for C9 with concrete rational configurations: an upsample
request of 1 errors, and bg_radius = 1 with a valid upsample/bg_color
configuration errors on the background branch. -/
theorem C9_fail_fast_witness :
    run (α := ℚ) (fun x => x) (fun _ => (1, 0)) (fun _ _ _ _ _ => (0, 0, 0)) (fun _ _ => 0)
      (-1, -1, -1) (1, 1, 1) 1 1 none (-1) 2 [] = .error .upsampleNonzero
    ∧ run (α := ℚ) (fun x => x) (fun _ => (1, 0)) (fun _ _ _ _ _ => (0, 0, 0)) (fun _ _ => 0)
      (-1, -1, -1) (1, 1, 1) 1 0 none 1 2 [] = .error .bgUnimplemented :=
  ⟨(C9_fail_fast (fun x => x) (fun _ => (1, 0)) (fun _ _ _ _ _ => (0, 0, 0)) (fun _ _ => 0)
      (-1, -1, -1) (1, 1, 1) 1 1 none (-1) 2 []).1 (by norm_num),
    (C9_fail_fast (fun x => x) (fun _ => (1, 0)) (fun _ _ _ _ _ => (0, 0, 0)) (fun _ _ => 0)
      (-1, -1, -1) (1, 1, 1) 1 0 none 1 2 []).2 rfl rfl (by norm_num)⟩

/-! ### Claim C7 -/

/-- Claim C7: for every sorted bins array of odd length 2m+1 with
equal-mass (uniform) weights, sample_pdf in deterministic mode with
n_samples = 1 returns the median bin boundary bins[m]. (The single
deterministic quantile is 1/2; the uniform cdf puts cdf[m] = 1/2 exactly,
so the interpolation parameter vanishes and bins[m] is returned.) -/
theorem C7_uniform_det_median (bins : List ℚ) (m : ℕ) (w : ℚ)
    (hlen : bins.length = 2 * m + 1) (hw : 0 ≤ w)
    (_hsort : bins.Sorted (· ≤ ·)) :
    samplePdfDet bins (List.replicate (2 * m) w) 1 = [bins.getD m 0] := by
  rw [samplePdfDet, uDet_one, samplePdf, List.map_cons, List.map_nil]
  refine congrArg₂ _ ?_ rfl
  rcases Nat.eq_zero_or_pos m with hm | hm
  · subst hm
    norm_num [samplePdfAt, cdfOf, pdfOf, cumsum, searchsortedRight, belowOf,
      aboveOf, spanOf, List.countP_cons]
  · have hwq : (0:ℚ) < w + 1 / 100000 := by linarith
    have hn : (0:ℚ) < ((2 * m : ℕ) : ℚ) := by
      have h2m : (0:ℕ) < 2 * m := by omega
      exact_mod_cast h2m
    have hpdf : pdfOf (List.replicate (2 * m) w)
        = List.replicate (2 * m) (1 / ((2 * m : ℕ) : ℚ)) := by
      rw [pdfOf]
      simp only [List.map_replicate, List.sum_replicate, nsmul_eq_mul]
      refine congrArg _ ?_
      rw [eq_div_iff (ne_of_gt hn)]
      field_simp
      ring
    have hcdf : cdfOf (List.replicate (2 * m) w)
        = 0 :: (List.range (2 * m)).map
            (fun (k : ℕ) => ((k : ℚ) + 1) * (1 / ((2 * m : ℕ) : ℚ))) := by
      rw [cdfOf, hpdf, cumsum_replicate]
    have hcount : searchsortedRight (cdfOf (List.replicate (2 * m) w)) (1/2) = m + 1 := by
      rw [hcdf, searchsortedRight, List.countP_cons, List.countP_map]
      have hcong : (List.range (2 * m)).countP
            ((fun c => decide (c ≤ (1:ℚ)/2)) ∘
              fun (k : ℕ) => ((k : ℚ) + 1) * (1 / ((2 * m : ℕ) : ℚ)))
          = (List.range (2 * m)).countP (fun k => decide (k < m)) := by
        refine List.countP_congr fun k _ => ?_
        simp only [Function.comp_apply, decide_eq_true_eq]
        rw [mul_one_div, div_le_div_iff₀ hn (by norm_num : (0:ℚ) < 2)]
        constructor
        · intro hle
          have hk1 : ((k + 1 : ℕ) : ℚ) * 2 ≤ ((2 * m : ℕ) : ℚ) * 1 := by push_cast; push_cast at hle; linarith
          have hk2 : (k + 1) * 2 ≤ (2 * m) * 1 := by exact_mod_cast hk1
          omega
        · intro hlt
          have hk2 : (k + 1) * 2 ≤ (2 * m) * 1 := by omega
          have hk1 : ((k + 1 : ℕ) : ℚ) * 2 ≤ ((2 * m : ℕ) : ℚ) * 1 := by exact_mod_cast hk2
          push_cast at hk1 ⊢
          linarith
      rw [hcong, countP_range_lt]
      have hmin : min m (2 * m) = m := by omega
      rw [hmin]
      norm_num
    have hbelow : belowOf (List.replicate (2 * m) w) (1/2) = m := by
      rw [belowOf, hcount]
      omega
    have hgetD : (cdfOf (List.replicate (2 * m) w)).getD m 0 = 1/2 := by
      obtain ⟨j, rfl⟩ : ∃ j, m = j + 1 := ⟨m - 1, by omega⟩
      rw [hcdf, List.getD_cons_succ, getD_map_range _ _ _ _ (by omega)]
      rw [mul_one_div, div_eq_div_iff (ne_of_gt hn) (by norm_num : (2:ℚ) ≠ 0)]
      push_cast
      ring
    rw [samplePdfAt, hbelow, hgetD]
    norm_num

/-- Witness for C7 at bins = [10, 20, 30], uniform weight 2: the returned
sample is the middle boundary 20. -/
theorem C7_uniform_det_median_witness :
    samplePdfDet [10, 20, 30] (List.replicate 2 2) 1 = [(20:ℚ)] :=
  C7_uniform_det_median [10, 20, 30] 1 2 (by norm_num) (by norm_num)
    (by norm_num [List.sorted_cons])

/-! ### Claim C6 -/

/-- Claim C6 (counterexample): at bins = [0, 1, 2], weights = [2, 0] and
quantile u = 0.9999999 the located cdf interval has span below 1e-5, yet
the returned sample is not the interval's lower bin boundary
bins[below]: the code replaces the denominator by 1 instead of
collapsing the sample, so the sample is bins[below] + (u - cdf[below]) *
(bins[above] - bins[below]) which differs from bins[below] here. -/
theorem C6_low_span_cex :
    spanOf [2, 0] (9999999/10000000) < 1/100000 ∧
      samplePdfAt [0, 1, 2] [2, 0] (9999999/10000000) ≠
        ([0, 1, 2] : List ℚ).getD (belowOf [2, 0] (9999999/10000000)) 0 := by
  have hcdf : cdfOf [2, 0] = [0, 200001/200002, 1] := by
    norm_num [cdfOf, pdfOf, cumsum]
  have hcount : searchsortedRight (cdfOf [2, 0]) (9999999/10000000) = 2 := by
    rw [hcdf]
    norm_num [searchsortedRight, List.countP_cons]
  have hbelow : belowOf [2, 0] (9999999/10000000) = 1 := by
    rw [belowOf, hcount]
  have habove : aboveOf [2, 0] (9999999/10000000) = 2 := by
    rw [aboveOf, hcount, hcdf]
    norm_num
  have hspan : spanOf [2, 0] (9999999/10000000) = 1/200002 := by
    rw [spanOf, hbelow, habove, hcdf]
    norm_num
  constructor
  · rw [hspan]; norm_num
  · rw [samplePdfAt, hbelow, habove, hspan, hcdf]
    norm_num

/-- Claim C6 (amended): when the located cdf interval has span below
1e-5, the denominator is replaced by 1, so the returned sample equals
bins[below] + (u - cdf[below]) * (bins[above] - bins[below]) rather than
exactly bins[below]; whenever the quantile lies inside the located
interval the sample is therefore within 1e-5 * |bins[above] -
bins[below]| of the lower bin boundary. -/
theorem C6_low_span_sample_formula (bins weights : List ℚ) (u : ℚ)
    (hspan : spanOf weights u < 1/100000) :
    samplePdfAt bins weights u
      = bins.getD (belowOf weights u) 0 +
        (u - (cdfOf weights).getD (belowOf weights u) 0) *
          (bins.getD (aboveOf weights u) 0 - bins.getD (belowOf weights u) 0) ∧
    ((cdfOf weights).getD (belowOf weights u) 0 ≤ u →
      u ≤ (cdfOf weights).getD (aboveOf weights u) 0 →
      |samplePdfAt bins weights u - bins.getD (belowOf weights u) 0| ≤
        1/100000 * |bins.getD (aboveOf weights u) 0 - bins.getD (belowOf weights u) 0|) := by
  have heq : samplePdfAt bins weights u
      = bins.getD (belowOf weights u) 0 +
        (u - (cdfOf weights).getD (belowOf weights u) 0) *
          (bins.getD (aboveOf weights u) 0 - bins.getD (belowOf weights u) 0) := by
    rw [samplePdfAt, if_pos hspan, div_one]
  refine ⟨heq, fun hlo hhi => ?_⟩
  rw [heq]
  have htle : u - (cdfOf weights).getD (belowOf weights u) 0 ≤ 1/100000 := by
    have : u - (cdfOf weights).getD (belowOf weights u) 0 ≤ spanOf weights u := by
      rw [spanOf]; linarith
    linarith
  have ht0 : 0 ≤ u - (cdfOf weights).getD (belowOf weights u) 0 := by linarith
  rw [add_sub_cancel_left, abs_mul, abs_of_nonneg ht0]
  exact mul_le_mul_of_nonneg_right htle (abs_nonneg _)

/-- Witness for the amended C6 at the concrete degenerate input. -/
theorem C6_low_span_sample_formula_witness :
    samplePdfAt [0, 1, 2] [2, 0] (9999999/10000000)
      = ([0, 1, 2] : List ℚ).getD (belowOf [2, 0] (9999999/10000000)) 0 +
        (9999999/10000000 - (cdfOf [2, 0]).getD (belowOf [2, 0] (9999999/10000000)) 0) *
          (([0, 1, 2] : List ℚ).getD (aboveOf [2, 0] (9999999/10000000)) 0 -
            ([0, 1, 2] : List ℚ).getD (belowOf [2, 0] (9999999/10000000)) 0) ∧
    ((cdfOf [2, 0]).getD (belowOf [2, 0] (9999999/10000000)) 0 ≤ 9999999/10000000 →
      9999999/10000000 ≤ (cdfOf [2, 0]).getD (aboveOf [2, 0] (9999999/10000000)) 0 →
      |samplePdfAt [0, 1, 2] [2, 0] (9999999/10000000) -
          ([0, 1, 2] : List ℚ).getD (belowOf [2, 0] (9999999/10000000)) 0| ≤
        1/100000 * |([0, 1, 2] : List ℚ).getD (aboveOf [2, 0] (9999999/10000000)) 0 -
          ([0, 1, 2] : List ℚ).getD (belowOf [2, 0] (9999999/10000000)) 0|) :=
  C6_low_span_sample_formula [0, 1, 2] [2, 0] (9999999/10000000)
    (by norm_num [spanOf, belowOf, aboveOf, searchsortedRight, cdfOf, pdfOf, cumsum,
      List.countP_cons])

/-! ### Claim C2 -/

/-- Claim C2: the EMA refresh touches a cell only when both its old
value and the fresh sample are non-negative, in which case it becomes
max(old * decay, sample); consequently a cell holding the Excluded
sentinel -1 still holds -1 after any number of update_extra_state calls,
and on old = [-1, 5, -1, 3], sample = [-1, -1, 4, 7] with decay = 0.95
the combine yields [-1, 5, -1, 7]. -/
theorem C2_excluded_cells_stay_excluded :
    (∀ decay old tmp : ℚ, ¬(0 ≤ old ∧ 0 ≤ tmp) → emaCell decay old tmp = old)
    ∧ (∀ decay old tmp : ℚ, 0 ≤ old → 0 ≤ tmp →
        emaCell decay old tmp = max (old * decay) tmp)
    ∧ (∀ (s : GridState) (decay : ℚ) (o : ℕ → UpdateOracle) (cas i k : ℕ),
        (s.densityGrid.getD cas []).getD i 0 = -1 →
        ((iterUpdate s decay o k).densityGrid.getD cas []).getD i 0 = -1)
    ∧ List.zipWith (emaCell (95/100)) [-1, 5, -1, 3] [-1, -1, 4, 7]
        = ([-1, 5, -1, 7] : List ℚ) := by
  refine ⟨fun decay old tmp h => by rw [emaCell, if_neg h],
    fun decay old tmp h1 h2 => by rw [emaCell, if_pos ⟨h1, h2⟩],
    fun s decay o cas i k h => iterUpdate_cell_neg_one s decay o cas i h k, ?_⟩
  norm_num [emaCell]

/-- Witness for C2: instances of the guarded-update clauses and the
sentinel persistence over five refreshes of a concrete grid state. -/
theorem C2_excluded_cells_stay_excluded_witness :
    emaCell (95/100) (-1) 4 = -1 ∧
    emaCell (95/100) 3 7 = max (3 * (95/100)) 7 ∧
    ((iterUpdate
        { cudaRay := true, densityGrid := [[-1, 5]], densityBitfield := [[false, true]],
          meanDensity := 0, iterDensity := 0, stepCounter := [3], meanCount := 0,
          localStep := 1, densityThresh := 1/100 }
        (95/100) (fun _ => ⟨fun _ _ => 2, fun _ _ => 0, fun _ _ => 0⟩)
        5).densityGrid.getD 0 []).getD 0 0 = -1 :=
  ⟨C2_excluded_cells_stay_excluded.1 (95/100) (-1) 4 (by norm_num),
    C2_excluded_cells_stay_excluded.2.1 (95/100) 3 7 (by norm_num) (by norm_num),
    C2_excluded_cells_stay_excluded.2.2.1 _ (95/100) _ 0 0 5 (by norm_num)⟩

/-! ### Claim C10 -/

/-- Claim C10: with cuda_ray = False every maintenance entrypoint
(mark_untrained_grid, update_extra_state, reset_extra_state) returns
immediately, leaving the renderer state unchanged, for all argument
values; the functions are total, so no error is raised. -/
theorem C10_non_cuda_maintenance_noop (s : GridState) (decay : ℚ) (o : UpdateOracle)
    (counts : List (List ℕ)) (h : s.cudaRay = false) :
    markUntrainedGrid s counts = s ∧ updateExtraState s decay o = s ∧
      resetExtraState s = s := by
  refine ⟨?_, ?_, ?_⟩ <;> simp [markUntrainedGrid, updateExtraState, resetExtraState, h]

/-! ### Claim C3 -/

theorem postMaskWeights_getD_zero {α : Type} [LinearOrderedField α] :
    ∀ (ws : List α) (i : ℕ), ¬ (1 / 10 ^ 4 < ws.getD i 0) →
      (postMaskWeights ws).getD i 0 = 0
  | [], i, _ => by simp [postMaskWeights, maskOf]
  | w :: ws, 0, h => by
    rw [List.getD_cons_zero] at h
    rw [postMaskWeights, maskOf, List.map_cons, List.zipWith_cons_cons,
      List.getD_cons_zero, decide_eq_false h]
    rfl
  | w :: ws, i + 1, h => by
    rw [postMaskWeights, maskOf, List.map_cons, List.zipWith_cons_cons,
      List.getD_cons_succ]
    rw [List.getD_cons_succ] at h
    exact postMaskWeights_getD_zero ws i h

theorem masked_color_smul_eq {α : Type} [LinearOrderedField α]
    (cf cg : Vec3 α → Vec3 α → Bool → α → α → Vec3 α) (d : Vec3 α)
    (hagree : ∀ x g s, cf x d true g s = cg x d true g s) :
    ∀ (ws : List α) (xyzs : List (Vec3 α)) (gs : List (α × α)),
      List.zipWith smul3 (postMaskWeights ws)
        (zipWith3 (fun xyz (m : Bool) (p : α × α) => cf xyz d m p.2 p.1)
          xyzs (maskOf ws) gs)
      = List.zipWith smul3 (postMaskWeights ws)
        (zipWith3 (fun xyz (m : Bool) (p : α × α) => cg xyz d m p.2 p.1)
          xyzs (maskOf ws) gs)
  | [], xyzs, gs => by simp [postMaskWeights, maskOf]
  | w :: ws, [], gs => by simp [postMaskWeights, maskOf, zipWith3]
  | w :: ws, x :: xs, [] => by simp [postMaskWeights, maskOf, zipWith3]
  | w :: ws, x :: xs, g :: gz => by
    rw [postMaskWeights, maskOf, List.map_cons, List.zipWith_cons_cons, zipWith3,
      zipWith3, List.zipWith_cons_cons, List.zipWith_cons_cons]
    have htail := masked_color_smul_eq cf cg d hagree ws xs gz
    rw [postMaskWeights, maskOf] at htail
    rw [htail]
    by_cases hw : 1 / 10 ^ 4 < w
    · rw [decide_eq_true hw, if_pos rfl, hagree]
    · rw [decide_eq_false hw, if_neg (by simp)]
      simp [smul3]

/-- Claim C3: the compositor computes mask_i = (weight_i > 1e-4) from
the pre-mask weights, queries color with this mask, then zeroes
weight_i wherever mask_i is false (the postMaskWeights definition used
by every downstream aggregate of runRayCore); consequently the color
outputs at masked-out samples never influence any aggregate: two color
functions that agree on mask=true queries produce identical image,
depth, depth variance, centroid and auxiliary clip feature (the
non-image aggregates do not consult the color function at all). -/
theorem C3_mask_zeroing_and_color_invariance {α : Type} [LinearOrderedField α]
    (fexp : α → α) (densityFn : Vec3 α → α × α)
    (cf cg : Vec3 α → Vec3 α → Bool → α → α → Vec3 α)
    (clipFn : α → α → α) (aabbLo aabbHi : Vec3 α) (scale : α) (T : ℕ) (r : Ray α) :
    (∀ (ws : List α) (i : ℕ), ¬ (1 / 10 ^ 4 < ws.getD i 0) →
      (postMaskWeights ws).getD i 0 = 0)
    ∧ ((∀ x g s, cf x r.d true g s = cg x r.d true g s) →
      (runRayCore fexp densityFn cf clipFn aabbLo aabbHi scale T r).image
          = (runRayCore fexp densityFn cg clipFn aabbLo aabbHi scale T r).image
        ∧ (runRayCore fexp densityFn cf clipFn aabbLo aabbHi scale T r).depth
          = (runRayCore fexp densityFn cg clipFn aabbLo aabbHi scale T r).depth
        ∧ (runRayCore fexp densityFn cf clipFn aabbLo aabbHi scale T r).depthVariance
          = (runRayCore fexp densityFn cg clipFn aabbLo aabbHi scale T r).depthVariance
        ∧ (runRayCore fexp densityFn cf clipFn aabbLo aabbHi scale T r).coordinatesMap
          = (runRayCore fexp densityFn cg clipFn aabbLo aabbHi scale T r).coordinatesMap
        ∧ (runRayCore fexp densityFn cf clipFn aabbLo aabbHi scale T r).clipFeatures
          = (runRayCore fexp densityFn cg clipFn aabbLo aabbHi scale T r).clipFeatures) := by
  refine ⟨postMaskWeights_getD_zero, fun hagree => ⟨?_, rfl, rfl, rfl, rfl⟩⟩
  simp only [runRayCore]
  rw [masked_color_smul_eq cf cg r.d hagree]

/-- Witness for C3: a weight at 1e-5 is zeroed by the mask, and two
concrete color functions that differ only on mask=false queries give
the same image on a concrete two-step ray. -/
theorem C3_mask_zeroing_and_color_invariance_witness :
    (postMaskWeights [(1:ℚ)/100000, 1]).getD 0 0 = 0
    ∧ (runRayCore (α := ℚ) (fun x => x) (fun _ => (1, 0))
        (fun _ _ m _ _ => if m then (1, 2, 3) else (9, 9, 9)) (fun _ _ => 0)
        (-1, -1, -1) (1, 1, 1) 1 2 ⟨(0, 0, 0), (0, 0, 1), 1, 0, 1⟩).image
      = (runRayCore (α := ℚ) (fun x => x) (fun _ => (1, 0))
        (fun _ _ m _ _ => if m then (1, 2, 3) else (0, 0, 0)) (fun _ _ => 0)
        (-1, -1, -1) (1, 1, 1) 1 2 ⟨(0, 0, 0), (0, 0, 1), 1, 0, 1⟩).image :=
  ⟨(C3_mask_zeroing_and_color_invariance (α := ℚ) (fun x => x) (fun _ => (1, 0))
      (fun _ _ m _ _ => if m then (1, 2, 3) else (9, 9, 9))
      (fun _ _ m _ _ => if m then (1, 2, 3) else (0, 0, 0)) (fun _ _ => 0)
      (-1, -1, -1) (1, 1, 1) 1 2 ⟨(0, 0, 0), (0, 0, 1), 1, 0, 1⟩).1
      [(1:ℚ)/100000, 1] 0 (by norm_num),
    ((C3_mask_zeroing_and_color_invariance (α := ℚ) (fun x => x) (fun _ => (1, 0))
      (fun _ _ m _ _ => if m then (1, 2, 3) else (9, 9, 9))
      (fun _ _ m _ _ => if m then (1, 2, 3) else (0, 0, 0)) (fun _ _ => 0)
      (-1, -1, -1) (1, 1, 1) 1 2 ⟨(0, 0, 0), (0, 0, 1), 1, 0, 1⟩).2
      (fun x g s => by simp)).1⟩

/-! ### Claim C5 -/

theorem chunksOfAux_flatten {β : Type} (c : ℕ) (hc : 0 < c) :
    ∀ (fuel : ℕ) (l : List β), l.length ≤ fuel → (chunksOfAux c fuel l).flatten = l := by
  intro fuel
  induction fuel with
  | zero =>
    intro l hl
    obtain rfl : l = [] := List.length_eq_zero.mp (Nat.le_zero.mp hl)
    rfl
  | succ fuel ih =>
    intro l hl
    cases l with
    | nil => rfl
    | cons x xs =>
      rw [List.length_cons] at hl
      rw [chunksOfAux, List.flatten_cons,
        ih ((x :: xs).drop c)
          (by simp only [List.length_drop, List.length_cons]; omega),
        List.take_append_drop]

theorem chunksOf_flatten {β : Type} (c : ℕ) (hc : 0 < c) (l : List β) :
    (chunksOf c l).flatten = l := by
  rw [chunksOf, if_neg (by omega)]
  exact chunksOfAux_flatten c hc l.length l le_rfl

theorem chunksOf_ne_nil {β : Type} (c : ℕ) (hc : 0 < c) (l : List β) (hl : l ≠ []) :
    chunksOf c l ≠ [] := by
  cases l with
  | nil => exact absurd rfl hl
  | cons x xs =>
    rw [chunksOf, if_neg (by omega)]
    simp [chunksOfAux]

theorem mapM_ok_of_forall {ε β γ : Type} (f : β → Except ε γ) (g : β → γ) :
    ∀ l : List β, (∀ x ∈ l, f x = .ok (g x)) → l.mapM f = .ok (l.map g) := by
  intro l
  induction l with
  | nil => intro _; rfl
  | cons x xs ih =>
    intro h
    rw [List.map_cons, List.mapM_cons, h x (List.mem_cons_self x xs),
      ih (fun y hy => h y (List.mem_cons_of_mem x hy))]
    rfl

theorem mapM_error_head {ε β γ : Type} (f : β → Except ε γ) (e : ε) (x : β)
    (l : List β) (hx : f x = .error e) : (x :: l).mapM f = .error e := by
  rw [List.mapM_cons, hx]
  rfl

theorem run_cases {α : Type} [LinearOrderedField α] (fexp : α → α)
    (densityFn : Vec3 α → α × α)
    (colorFn : Vec3 α → Vec3 α → Bool → α → α → Vec3 α)
    (clipFn : α → α → α) (aabbLo aabbHi : Vec3 α) (scale : α)
    (upsampleSteps : ℕ) (bgColor : Option α) (bgRadius : α) (T : ℕ) :
    (∃ e : RunError, ∀ rs : List (Ray α),
      run fexp densityFn colorFn clipFn aabbLo aabbHi scale upsampleSteps bgColor
        bgRadius T rs = .error e)
    ∨ (∀ rs : List (Ray α),
      run fexp densityFn colorFn clipFn aabbLo aabbHi scale upsampleSteps bgColor
        bgRadius T rs
        = .ok (rs.map (runRayCore fexp densityFn colorFn clipFn aabbLo aabbHi scale T))) := by
  by_cases h1 : upsampleSteps ≠ 0
  · exact Or.inl ⟨.upsampleNonzero, fun rs => by rw [run, if_pos h1]⟩
  by_cases h2 : bgColor.isSome
  · exact Or.inl ⟨.bgColorGiven, fun rs => by
      rw [run, if_neg h1, if_pos h2]⟩
  by_cases h3 : 0 < bgRadius
  · exact Or.inl ⟨.bgUnimplemented, fun rs => by
      rw [run, if_neg h1, if_neg h2, if_pos h3]⟩
  · exact Or.inr fun rs => by rw [run, if_neg h1, if_neg h2, if_neg h3]

theorem collectOutputs_false_eq_erase {α : Type} [LinearOrderedField α]
    (outs : List (RunOutput α)) :
    collectOutputs outs false = eraseRgb (collectOutputs outs true) := by
  simp [collectOutputs, eraseRgb]

/-- Claim C5 (amended): for every non-empty ray batch and every positive
chunk size (dividing the batch evenly or not), staged rendering with
perturb=False produces the same depth, depth variance, image, centroid
and auxiliary-feature outputs as unstaged rendering, with chunk
boundaries never splitting a ray (the chunks concatenate back to the
original batch); the staged result differs from the unstaged one only
in that the per-sample rgb output of run is dropped by the staged
assembly loop. (Chunk size 0 makes the staged python loop diverge, and
with an empty batch the staged path skips run's configuration asserts,
hence the positivity/non-emptiness hypotheses.) -/
theorem C5_staged_eq_unstaged_minus_rgb {α : Type} [LinearOrderedField α]
    (cudaRay : Bool) (fexp : α → α) (densityFn : Vec3 α → α × α)
    (colorFn : Vec3 α → Vec3 α → Bool → α → α → Vec3 α)
    (clipFn : α → α → α) (aabbLo aabbHi : Vec3 α) (scale : α)
    (upsampleSteps : ℕ) (bgColor : Option α) (bgRadius : α) (T : ℕ)
    (maxRayBatch : ℕ) (rays : List (Ray α))
    (hc : 0 < maxRayBatch) (hne : rays ≠ []) :
    render cudaRay fexp densityFn colorFn clipFn aabbLo aabbHi scale upsampleSteps
        bgColor bgRadius T true maxRayBatch rays
      = (render cudaRay fexp densityFn colorFn clipFn aabbLo aabbHi scale upsampleSteps
        bgColor bgRadius T false maxRayBatch rays).map eraseRgb
    ∧ (chunksOf maxRayBatch rays).flatten = rays := by
  refine ⟨?_, chunksOf_flatten maxRayBatch hc rays⟩
  cases cudaRay with
  | true => rfl
  | false =>
    have hstaged : render false fexp densityFn colorFn clipFn aabbLo aabbHi scale
        upsampleSteps bgColor bgRadius T true maxRayBatch rays
        = Except.map (fun chunkOuts => collectOutputs chunkOuts.flatten false)
          ((chunksOf maxRayBatch rays).mapM
            (run fexp densityFn colorFn clipFn aabbLo aabbHi scale upsampleSteps
              bgColor bgRadius T)) := by
      rw [render, if_neg Bool.false_ne_true, if_pos rfl]
    have hunstaged : render false fexp densityFn colorFn clipFn aabbLo aabbHi scale
        upsampleSteps bgColor bgRadius T false maxRayBatch rays
        = Except.map (fun outs => collectOutputs outs true)
          (run fexp densityFn colorFn clipFn aabbLo aabbHi scale upsampleSteps
            bgColor bgRadius T rays) := by
      rw [render, if_neg Bool.false_ne_true, if_neg Bool.false_ne_true]
    rw [hstaged, hunstaged]
    rcases run_cases fexp densityFn colorFn clipFn aabbLo aabbHi scale upsampleSteps
      bgColor bgRadius T with ⟨e, herr⟩ | hok
    · obtain ⟨ch, rest, hchunks⟩ :=
        List.exists_cons_of_ne_nil (chunksOf_ne_nil maxRayBatch hc rays hne)
      rw [hchunks, mapM_error_head _ e ch rest (herr ch), herr rays]
      rfl
    · rw [mapM_ok_of_forall _ _ (chunksOf maxRayBatch rays) (fun ch _ => hok ch),
        hok rays]
      show Except.ok (collectOutputs ((chunksOf maxRayBatch rays).map
        (List.map (runRayCore fexp densityFn colorFn clipFn aabbLo aabbHi scale T))).flatten
        false) = _
      rw [← List.map_flatten, chunksOf_flatten maxRayBatch hc rays,
        collectOutputs_false_eq_erase]
      rfl

/-- Witness for the amended C5 on a three-ray batch with chunk size 2
(which does not divide the batch evenly). -/
theorem C5_staged_eq_unstaged_minus_rgb_witness :
    render (α := ℚ) false (fun x => x) (fun _ => (1, 0)) (fun _ _ _ _ _ => (1, 1, 1))
        (fun _ _ => 0) (-1, -1, -1) (1, 1, 1) 1 0 none (-1) 2 true 2
        [⟨(0, 0, 0), (0, 0, 1), 1, 0, 1⟩, ⟨(0, 0, 0), (0, 1, 0), 1, 0, 2⟩,
          ⟨(0, 0, 0), (1, 0, 0), 1, 0, 3⟩]
      = (render (α := ℚ) false (fun x => x) (fun _ => (1, 0)) (fun _ _ _ _ _ => (1, 1, 1))
        (fun _ _ => 0) (-1, -1, -1) (1, 1, 1) 1 0 none (-1) 2 false 2
        [⟨(0, 0, 0), (0, 0, 1), 1, 0, 1⟩, ⟨(0, 0, 0), (0, 1, 0), 1, 0, 2⟩,
          ⟨(0, 0, 0), (1, 0, 0), 1, 0, 3⟩]).map eraseRgb
    ∧ (chunksOf 2
        [(⟨(0, 0, 0), (0, 0, 1), 1, 0, 1⟩ : Ray ℚ), ⟨(0, 0, 0), (0, 1, 0), 1, 0, 2⟩,
          ⟨(0, 0, 0), (1, 0, 0), 1, 0, 3⟩]).flatten
      = [⟨(0, 0, 0), (0, 0, 1), 1, 0, 1⟩, ⟨(0, 0, 0), (0, 1, 0), 1, 0, 2⟩,
          ⟨(0, 0, 0), (1, 0, 0), 1, 0, 3⟩] :=
  C5_staged_eq_unstaged_minus_rgb false (fun x => x) (fun _ => (1, 0))
    (fun _ _ _ _ _ => (1, 1, 1)) (fun _ _ => 0) (-1, -1, -1) (1, 1, 1) 1 0 none (-1) 2 2
    [⟨(0, 0, 0), (0, 0, 1), 1, 0, 1⟩, ⟨(0, 0, 0), (0, 1, 0), 1, 0, 2⟩,
      ⟨(0, 0, 0), (1, 0, 0), 1, 0, 3⟩] (by norm_num) (by simp)

/-- Claim C5 (counterexample): on a concrete one-ray batch with a valid
configuration, the staged result is not identical to the unstaged
result: the staged assembly loop (lines 733-767) omits the per-sample
rgb output that unstaged run returns. -/
theorem C5_staged_output_differs_cex :
    render (α := ℚ) false (fun x => x) (fun _ => (1, 0))
        (fun _ _ _ _ _ => (1, 1, 1)) (fun _ _ => 0) (-1, -1, -1) (1, 1, 1) 1 0 none
        (-1) 1 true 1 [⟨(0, 0, 0), (0, 0, 1), 1, 0, 1⟩]
      ≠ render (α := ℚ) false (fun x => x) (fun _ => (1, 0))
        (fun _ _ _ _ _ => (1, 1, 1)) (fun _ _ => 0) (-1, -1, -1) (1, 1, 1) 1 0 none
        (-1) 1 false 1 [⟨(0, 0, 0), (0, 0, 1), 1, 0, 1⟩] := by
  intro h
  have hmap := congrArg (Except.map (fun r => r.rgb)) h
  rw [render, render, if_neg Bool.false_ne_true, if_neg Bool.false_ne_true,
    if_pos rfl, if_neg Bool.false_ne_true] at hmap
  have hrun : run (α := ℚ) (fun x => x) (fun _ => (1, 0))
      (fun _ _ _ _ _ => (1, 1, 1)) (fun _ _ => 0) (-1, -1, -1) (1, 1, 1) 1 0 none
      (-1) 1 [⟨(0, 0, 0), (0, 0, 1), 1, 0, 1⟩]
      = .ok ([⟨(0, 0, 0), (0, 0, 1), 1, 0, 1⟩].map
          (runRayCore (fun x => x) (fun _ => (1, 0)) (fun _ _ _ _ _ => (1, 1, 1))
            (fun _ _ => 0) (-1, -1, -1) (1, 1, 1) 1 1)) := by
    rw [run, if_neg (by simp), if_neg (by simp), if_neg (by norm_num)]
  have hchunks : chunksOf 1 [(⟨(0, 0, 0), (0, 0, 1), 1, 0, 1⟩ : Ray ℚ)]
      = [[⟨(0, 0, 0), (0, 0, 1), 1, 0, 1⟩]] := rfl
  rw [hchunks, List.mapM_cons, hrun] at hmap
  simp only [List.mapM_nil] at hmap
  simp [collectOutputs, Except.map] at hmap

/-! ### Claim C8 -/

theorem updateExtraState_cudaRay (s : GridState) (decay : ℚ) (o : UpdateOracle) :
    (updateExtraState s decay o).cudaRay = s.cudaRay := by
  rw [updateExtraState]
  by_cases h : s.cudaRay <;> simp [h]

theorem iterUpdate_cudaRay (s : GridState) (decay : ℚ) (o : ℕ → UpdateOracle) :
    ∀ k : ℕ, (iterUpdate s decay o k).cudaRay = s.cudaRay := by
  intro k
  induction k with
  | zero => rfl
  | succ k ih => rw [iterUpdate, updateExtraState_cudaRay, ih]

theorem updateExtraState_iterDensity (s : GridState) (decay : ℚ) (o : UpdateOracle)
    (h : s.cudaRay = true) :
    (updateExtraState s decay o).iterDensity = s.iterDensity + 1 := by
  rw [updateExtraState]
  simp [h]

theorem iterUpdate_iterDensity (s : GridState) (decay : ℚ) (o : ℕ → UpdateOracle)
    (h : s.cudaRay = true) :
    ∀ k : ℕ, (iterUpdate s decay o k).iterDensity = s.iterDensity + k := by
  intro k
  induction k with
  | zero => rfl
  | succ k ih =>
    rw [iterUpdate, updateExtraState_iterDensity _ decay (o k)
      (by rw [iterUpdate_cudaRay]; exact h), ih]
    omega

/-- Claim C8: starting from a fresh cuda-ray renderer (iter_density = 0),
each of the first 16 update_extra_state calls takes the full-sweep
branch of line 589 — the tmp grid assigns the freshly queried value to
every cell of every cascade — and every call after the 16th takes the
steady-state branch instead, which samples gridSize^3/4 uniformly
random cells plus gridSize^3/4 cells drawn with replacement from the
occupied cells; since iter_density only ever increments (absent an
explicit reset), a full sweep never happens again after the 16th call. -/
theorem C8_refresh_schedule (s0 : GridState) (decay : ℚ) (o : ℕ → UpdateOracle)
    (hc : s0.cudaRay = true) (h0 : s0.iterDensity = 0) :
    (∀ k, k < 16 → sweepIsFull (iterUpdate s0 decay o k) = true)
    ∧ (∀ k, 16 ≤ k → sweepIsFull (iterUpdate s0 decay o k) = false)
    ∧ (∀ (s : GridState) (oc : UpdateOracle) (cas i : ℕ), sweepIsFull s = true →
        cas < s.densityGrid.length → i < (s.densityGrid.getD cas []).length →
        ((tmpGridOf s oc).getD cas []).getD i 0 = oc.sampleVal cas i)
    ∧ (∀ (oc : UpdateOracle) (cas : ℕ) (g : List ℚ),
        (sparseIndices oc cas g).length = gridSize ^ 3 / 4 + gridSize ^ 3 / 4) := by
  refine ⟨fun k hk => ?_, fun k hk => ?_, fun s oc cas i hfull hcas hi => ?_,
    fun oc cas g => ?_⟩
  · rw [sweepIsFull, iterUpdate_iterDensity s0 decay o hc k, h0]
    exact decide_eq_true (by omega)
  · rw [sweepIsFull, iterUpdate_iterDensity s0 decay o hc k, h0]
    exact decide_eq_false (by omega)
  · have hlt : s.iterDensity < 16 := by
      rw [sweepIsFull] at hfull
      exact of_decide_eq_true hfull
    rw [tmpGridOf, getD_map_range _ _ _ _ hcas, if_pos hlt, fullSweepSlice,
      getD_map_range _ _ _ _ hi]
  · simp [sparseIndices]

/-- Witness for C8 on a concrete two-cell single-cascade state: call 4
is still a full sweep, call 17 is not, the full sweep samples cell 1,
and the steady-state index list has the two advertised halves. -/
theorem C8_refresh_schedule_witness :
    sweepIsFull (iterUpdate
        { cudaRay := true, densityGrid := [[0, 2]], densityBitfield := [[false, false]],
          meanDensity := 0, iterDensity := 0, stepCounter := [], meanCount := 0,
          localStep := 0, densityThresh := 1/100 }
        (19/20) (fun _ => ⟨fun _ _ => 3, fun _ _ => 0, fun _ _ => 0⟩) 3) = true
    ∧ sweepIsFull (iterUpdate
        { cudaRay := true, densityGrid := [[0, 2]], densityBitfield := [[false, false]],
          meanDensity := 0, iterDensity := 0, stepCounter := [], meanCount := 0,
          localStep := 0, densityThresh := 1/100 }
        (19/20) (fun _ => ⟨fun _ _ => 3, fun _ _ => 0, fun _ _ => 0⟩) 16) = false
    ∧ ((tmpGridOf
        { cudaRay := true, densityGrid := [[0, 2]], densityBitfield := [[false, false]],
          meanDensity := 0, iterDensity := 0, stepCounter := [], meanCount := 0,
          localStep := 0, densityThresh := 1/100 }
        ⟨fun _ _ => 3, fun _ _ => 0, fun _ _ => 0⟩).getD 0 []).getD 1 0 = 3
    ∧ (sparseIndices ⟨fun _ _ => 3, fun _ _ => 0, fun _ _ => 0⟩ 0 [0, 2]).length
        = gridSize ^ 3 / 4 + gridSize ^ 3 / 4 :=
  ⟨(C8_refresh_schedule _ (19/20) (fun _ => ⟨fun _ _ => 3, fun _ _ => 0, fun _ _ => 0⟩)
      rfl rfl).1 3 (by norm_num),
    (C8_refresh_schedule _ (19/20) (fun _ => ⟨fun _ _ => 3, fun _ _ => 0, fun _ _ => 0⟩)
      rfl rfl).2.1 16 (by norm_num),
    (C8_refresh_schedule
      { cudaRay := true, densityGrid := [[0, 2]], densityBitfield := [[false, false]],
        meanDensity := 0, iterDensity := 0, stepCounter := [], meanCount := 0,
        localStep := 0, densityThresh := 1/100 }
      (19/20) (fun _ => ⟨fun _ _ => 3, fun _ _ => 0, fun _ _ => 0⟩) rfl rfl).2.2.1
      { cudaRay := true, densityGrid := [[0, 2]], densityBitfield := [[false, false]],
        meanDensity := 0, iterDensity := 0, stepCounter := [], meanCount := 0,
        localStep := 0, densityThresh := 1/100 }
      ⟨fun _ _ => 3, fun _ _ => 0, fun _ _ => 0⟩ 0 1 rfl (by norm_num) (by norm_num),
    (C8_refresh_schedule
      { cudaRay := true, densityGrid := [[0, 2]], densityBitfield := [[false, false]],
        meanDensity := 0, iterDensity := 0, stepCounter := [], meanCount := 0,
        localStep := 0, densityThresh := 1/100 }
      (19/20) (fun _ => ⟨fun _ _ => 3, fun _ _ => 0, fun _ _ => 0⟩) rfl rfl).2.2.2
      ⟨fun _ _ => 3, fun _ _ => 0, fun _ _ => 0⟩ 0 [0, 2]⟩

/-- Witness for C10 on a concrete non-cuda renderer state. -/
theorem C10_non_cuda_maintenance_noop_witness :
    markUntrainedGrid
        { cudaRay := false, densityGrid := [[1, 2]], densityBitfield := [[true, false]],
          meanDensity := 3/2, iterDensity := 7, stepCounter := [5], meanCount := 2,
          localStep := 4, densityThresh := 1/100 } [[0, 1]]
      = { cudaRay := false, densityGrid := [[1, 2]], densityBitfield := [[true, false]],
          meanDensity := 3/2, iterDensity := 7, stepCounter := [5], meanCount := 2,
          localStep := 4, densityThresh := 1/100 } ∧
    updateExtraState
        { cudaRay := false, densityGrid := [[1, 2]], densityBitfield := [[true, false]],
          meanDensity := 3/2, iterDensity := 7, stepCounter := [5], meanCount := 2,
          localStep := 4, densityThresh := 1/100 } (95/100)
        ⟨fun _ _ => 2, fun _ _ => 0, fun _ _ => 0⟩
      = { cudaRay := false, densityGrid := [[1, 2]], densityBitfield := [[true, false]],
          meanDensity := 3/2, iterDensity := 7, stepCounter := [5], meanCount := 2,
          localStep := 4, densityThresh := 1/100 } ∧
    resetExtraState
        { cudaRay := false, densityGrid := [[1, 2]], densityBitfield := [[true, false]],
          meanDensity := 3/2, iterDensity := 7, stepCounter := [5], meanCount := 2,
          localStep := 4, densityThresh := 1/100 }
      = { cudaRay := false, densityGrid := [[1, 2]], densityBitfield := [[true, false]],
          meanDensity := 3/2, iterDensity := 7, stepCounter := [5], meanCount := 2,
          localStep := 4, densityThresh := 1/100 } :=
  C10_non_cuda_maintenance_noop _ (95/100) ⟨fun _ _ => 2, fun _ _ => 0, fun _ _ => 0⟩
    [[0, 1]] rfl

end TorchNGP
